import Mathlib

/-!
Verification of the ingestion pipeline in `src/services/ingestion/handler.py`.

The handler splits documents into overlapping chunks, embeds each chunk via an
external service with retry/backoff, stores vectors idempotently, and writes a
per-document manifest.  Text is modelled as `List Char`, vectors as `List ℚ`,
and the external collaborators (S3, Bedrock) as explicit oracles describing the
outcome of each call.
-/

namespace Ingestion

/-! ### Configuration constants (module-level defaults in the handler) -/

def S3_VECTORS_INDEX : String := "rag-insurellm-dev-kb"

def S3_VECTORS_NAMESPACE : String := "default"

def BEDROCK_EMBEDDING_MODEL : String := "amazon.titan-embed-text-v2:0"

/-! ### Character helpers

The backtick character is written via its code point. -/

def tick : Char := Char.ofNat 96

def nl : Char := Char.ofNat 10

/-! ### Text normalizer: `markdown_to_text`

Python:
  without_code_blocks = re.sub(r"triple-tick .*? triple-tick", "", markdown, flags=re.DOTALL)
  without_inline_code = re.sub(r"tick ([^tick]*) tick", r"\1", without_code_blocks)
  collapsed = re.sub(r"\n{3,}", "\n\n", without_inline_code)
  return collapsed.strip()

Each `re.sub` is modelled by its leftmost-match / continue-after-match
semantics. -/

/-- Does the list start with three consecutive backticks? -/
def startsTicks3 : List Char → Bool
  | a :: b :: c :: _ => a = tick && b = tick && c = tick
  | _ => false

/-- Index of the first occurrence of three consecutive backticks. -/
def findTicks3 : List Char → Option Nat
  | [] => none
  | l@(_ :: rest) =>
    if startsTicks3 l then some 0
    else (findTicks3 rest).map (· + 1)

/-- Index of the first backtick. -/
def findTick : List Char → Option Nat
  | [] => none
  | c :: rest =>
    if c = tick then some 0
    else (findTick rest).map (· + 1)

theorem startsTicks3_length {l : List Char} (h : startsTicks3 l = true) :
    3 ≤ l.length := by
  match l with
  | [] => simp [startsTicks3] at h
  | [a] => simp [startsTicks3] at h
  | [a, b] => simp [startsTicks3] at h
  | a :: b :: c :: rest => simp only [List.length_cons]; omega

theorem findTicks3_le {l : List Char} {i : Nat} (h : findTicks3 l = some i) :
    i + 3 ≤ l.length := by
  induction l generalizing i with
  | nil => simp [findTicks3] at h
  | cons a rest ih =>
    rw [findTicks3] at h
    split at h
    · next hs =>
      cases h
      have := startsTicks3_length hs
      omega
    · next =>
      cases hf : findTicks3 rest with
      | none => rw [hf] at h; simp at h
      | some j =>
        rw [hf] at h
        simp only [Option.map] at h
        cases h
        have := ih hf
        simp only [List.length_cons]
        omega

theorem findTick_le {l : List Char} {i : Nat} (h : findTick l = some i) :
    i + 1 ≤ l.length := by
  induction l generalizing i with
  | nil => simp [findTick] at h
  | cons a rest ih =>
    rw [findTick] at h
    split at h
    · cases h
      simp only [List.length_cons]
      omega
    · cases hf : findTick rest with
      | none => rw [hf] at h; simp at h
      | some j =>
        rw [hf] at h
        simp only [Option.map] at h
        cases h
        have := ih hf
        simp only [List.length_cons]
        omega

/-- First pass of `markdown_to_text`: remove fenced code blocks
(`re.sub` with a non-greedy match spanning newlines, replaced by nothing).
Each iteration consumes at least six characters, so fuel `l.length` is more
than enough; the zero-fuel branch is unreachable. -/
def removeFencesF : Nat → List Char → List Char
  | 0, l => l
  | fuel + 1, l =>
    match findTicks3 l with
    | none => l
    | some i =>
      match findTicks3 (l.drop (i + 3)) with
      | none => l
      | some j => l.take i ++ removeFencesF fuel ((l.drop (i + 3)).drop (j + 3))

def removeFences (l : List Char) : List Char := removeFencesF l.length l

/-- Second pass: unwrap inline code spans (pattern: backtick, a run of
non-backticks, backtick; replaced by the run).  Each iteration consumes at
least two characters, so fuel `l.length` suffices. -/
def removeInlineF : Nat → List Char → List Char
  | 0, l => l
  | fuel + 1, l =>
    match findTick l with
    | none => l
    | some i =>
      match findTick (l.drop (i + 1)) with
      | none => l
      | some j =>
        l.take i ++ (l.drop (i + 1)).take j ++ removeInlineF fuel ((l.drop (i + 1)).drop (j + 1))

def removeInline (l : List Char) : List Char := removeInlineF l.length l

/-- Number of leading newline characters. -/
def leadNls : List Char → Nat
  | [] => 0
  | c :: rest => if c = nl then leadNls rest + 1 else 0

/-- Third pass: collapse each run of three or more newlines to exactly two.
Each iteration consumes at least one character, so fuel `l.length` suffices. -/
def collapseNlsF : Nat → List Char → List Char
  | 0, l => l
  | fuel + 1, l =>
    match l with
    | [] => []
    | c :: rest =>
      if c = nl ∧ leadNls (c :: rest) ≥ 3 then
        nl :: nl :: collapseNlsF fuel ((c :: rest).drop (leadNls (c :: rest)))
      else
        c :: collapseNlsF fuel rest

def collapseNls (l : List Char) : List Char := collapseNlsF l.length l

/-- Python `str.strip` whitespace set (the code points with `str.isspace`). -/
def isPySpace (c : Char) : Bool :=
  c.toNat ∈ [9, 10, 11, 12, 13, 28, 29, 30, 31, 32, 133, 160, 5760,
    8192, 8193, 8194, 8195, 8196, 8197, 8198, 8199, 8200, 8201, 8202,
    8232, 8233, 8239, 8287, 12288]

/-- Python `str.strip`: drop leading and trailing whitespace. -/
def pyStrip (l : List Char) : List Char :=
  ((l.dropWhile isPySpace).reverse.dropWhile isPySpace).reverse

/-- The normalizer `markdown_to_text` from the handler. -/
def markdown_to_text (markdown : List Char) : List Char :=
  pyStrip (collapseNls (removeInline (removeFences markdown)))

/-! ### Chunker: `chunk_text`

Python:
  if not text: return []
  chunks = []; start = 0
  while start < len(text):
      end = min(start + chunk_size, len(text))
      chunks.append(text[start:end])
      if end == len(text): break
      start = end - overlap
  return chunks

The while loop is modelled with explicit fuel; `len(text)` units of fuel are
enough whenever `overlap < chunk_size` (proved below), so `chunk_text` runs the
loop with that much fuel. -/

/-- One fuel unit per loop iteration; `start` is the loop variable.  Each
iteration computes `end = min(start + chunk_size, len)` and the slice
`text[start:end]`, which is `(t.drop start).take (end - start)`. -/
def chunkLoop (t : List Char) (chunkSize overlap : Nat) : Nat → Nat → List (List Char)
  | 0, _ => []
  | fuel + 1, start =>
    if start < t.length then
      if min (start + chunkSize) t.length = t.length then
        [(t.drop start).take (min (start + chunkSize) t.length - start)]
      else
        ((t.drop start).take (min (start + chunkSize) t.length - start)) ::
          chunkLoop t chunkSize overlap fuel (min (start + chunkSize) t.length - overlap)
    else []

/-- The chunker `chunk_text` (call sites use the defaults 1200 / 200). -/
def chunk_text (text : List Char) (chunkSize overlap : Nat) : List (List Char) :=
  if text = [] then [] else chunkLoop text chunkSize overlap text.length 0

/-- The loop result is empty once `start` has passed the end of the text. -/
theorem chunkLoop_ge {t : List Char} {C O fuel start : Nat}
    (hs : ¬ start < t.length) : chunkLoop t C O fuel start = [] := by
  cases fuel <;> simp [chunkLoop, hs]

/-- With `overlap < chunkSize`, one extra unit of fuel beyond
`len - start` changes nothing. -/
theorem chunkLoop_fuel_succ {t : List Char} {C O : Nat} (hO : O < C) :
    ∀ {fuel start : Nat}, t.length - start ≤ fuel + 1 →
      chunkLoop t C O (fuel + 1) start = chunkLoop t C O (fuel + 1 + 1) start := by
  intro fuel
  induction fuel with
  | zero =>
    intro start h
    by_cases hs : start < t.length
    · have he : min (start + C) t.length = t.length := by omega
      simp [chunkLoop, hs, he]
    · simp [chunkLoop, hs]
  | succ f ih =>
    intro start h
    by_cases hs : start < t.length
    · conv_lhs => rw [chunkLoop]
      conv_rhs => rw [chunkLoop]
      simp only [if_pos hs]
      by_cases he : min (start + C) t.length = t.length
      · simp [he]
      · simp only [if_neg he]
        have hmin : min (start + C) t.length = start + C := by omega
        rw [hmin]
        have hb : t.length - (start + C - O) ≤ f + 1 := by omega
        rw [ih hb]
    · rw [chunkLoop_ge hs, chunkLoop_ge hs]

/-- Fuel monotonicity: any extra fuel beyond `len - start` is inert. -/
theorem chunkLoop_fuel_add {t : List Char} {C O : Nat} (hO : O < C) :
    ∀ (k : Nat) {fuel start : Nat}, t.length - start ≤ fuel →
      chunkLoop t C O fuel start = chunkLoop t C O (fuel + k) start := by
  intro k
  induction k with
  | zero => intro fuel start _; rfl
  | succ n ih =>
    intro fuel start h
    rw [ih h]
    by_cases hs : start < t.length
    · obtain ⟨f, hf⟩ : ∃ f, fuel + n = f + 1 := ⟨fuel + n - 1, by omega⟩
      have hb : t.length - start ≤ f + 1 := by omega
      have step := @chunkLoop_fuel_succ t C O hO f start hb
      rw [hf]
      have e2 : fuel + (n + 1) = f + 1 + 1 := by omega
      rw [e2]
      exact step
    · rw [chunkLoop_ge hs, chunkLoop_ge hs]

/-- Concatenation of a chunk list where every chunk is stripped of its
first `O` characters (used for the chunks after the first one). -/
def tailJoin (O : Nat) (l : List (List Char)) : List Char :=
  (l.map (List.drop O)).flatten

/-- Head chunk kept whole, later chunks with the overlap removed. -/
def dropJoin (O : Nat) : List (List Char) → List Char
  | [] => []
  | c :: r => c ++ tailJoin O r

theorem chunkLoop_headChunk {t : List Char} {C O : Nat} {fuel start : Nat}
    (hs : start < t.length) (hf : 0 < fuel) :
    ∃ r, chunkLoop t C O fuel start =
      ((t.drop start).take (min (start + C) t.length - start)) :: r := by
  obtain ⟨f, rfl⟩ : ∃ f, fuel = f + 1 := ⟨fuel - 1, by omega⟩
  rw [chunkLoop]
  simp only [if_pos hs]
  by_cases he : min (start + C) t.length = t.length
  · rw [if_pos he]
    exact ⟨[], rfl⟩
  · rw [if_neg he]
    exact ⟨_, rfl⟩

/-- Reconstruction: keeping the first chunk whole and stripping the overlap
from every later chunk yields exactly the tail of the text from `start`. -/
theorem chunkLoop_dropJoin {t : List Char} {C O : Nat} (hO : O < C) :
    ∀ {fuel start : Nat}, start < t.length → t.length - start ≤ fuel →
      dropJoin O (chunkLoop t C O fuel start) = t.drop start := by
  intro fuel
  induction fuel with
  | zero => intro start hs h; omega
  | succ f ih =>
    intro start hs h
    rw [chunkLoop]
    simp only [if_pos hs]
    by_cases he : min (start + C) t.length = t.length
    · rw [if_pos he, he]
      rw [dropJoin, tailJoin]
      simp only [List.map_nil, List.flatten_nil, List.append_nil]
      have hlen : t.length - start = (t.drop start).length := (List.length_drop start t).symm
      rw [hlen, List.take_length]
    · rw [if_neg he]
      have hmin : min (start + C) t.length = start + C := by omega
      have hlt : start + C < t.length := by omega
      rw [hmin, dropJoin]
      have hs' : start + C - O < t.length := by omega
      have hfuel' : t.length - (start + C - O) ≤ f := by omega
      have hrec := ih hs' hfuel'
      obtain ⟨r, hr⟩ := @chunkLoop_headChunk t C O f (start + C - O) hs' (by omega)
      have hheadlen : O ≤ ((t.drop (start + C - O)).take
          (min (start + C - O + C) t.length - (start + C - O))).length := by
        simp only [List.length_take, List.length_drop]
        omega
      have htail : tailJoin O (chunkLoop t C O f (start + C - O)) =
          (dropJoin O (chunkLoop t C O f (start + C - O))).drop O := by
        rw [hr, tailJoin, dropJoin, List.map_cons, List.flatten_cons,
          List.drop_append_of_le_length hheadlen, tailJoin]
      rw [htail, hrec, List.drop_drop]
      have hOadd : start + C - O + O = start + C := by omega
      rw [hOadd]
      have hC : start + C - start = C := by omega
      rw [hC, ← List.drop_drop, List.take_append_drop]

/-! ### SHA-256 (model of `hashlib.sha256(...).hexdigest()`)

Standard FIPS 180-4 SHA-256 over the UTF-8 bytes of the input, with 32-bit
words represented as `Nat` reduced modulo `2^32`. -/

/-- Reduce to a 32-bit word. -/
def w32 (n : Nat) : Nat := n % 4294967296

/-- Right rotation of a 32-bit word. -/
def rotr (k n : Nat) : Nat := w32 ((n >>> k) ||| (n <<< (32 - k)))

def shaCh (x y z : Nat) : Nat := (x &&& y) ^^^ ((x ^^^ 4294967295) &&& z)

def shaMaj (x y z : Nat) : Nat := (x &&& y) ^^^ (x &&& z) ^^^ (y &&& z)

def bigSigma0 (x : Nat) : Nat := rotr 2 x ^^^ rotr 13 x ^^^ rotr 22 x

def bigSigma1 (x : Nat) : Nat := rotr 6 x ^^^ rotr 11 x ^^^ rotr 25 x

def smallSigma0 (x : Nat) : Nat := rotr 7 x ^^^ rotr 18 x ^^^ (x >>> 3)

def smallSigma1 (x : Nat) : Nat := rotr 17 x ^^^ rotr 19 x ^^^ (x >>> 10)

/-- The 64 SHA-256 round constants of FIPS 180-4, written in decimal. -/
def K256 : List Nat :=
  [1116352408, 1899447441, 3049323471, 3921009573, 961987163, 1508970993,
   2453635748, 2870763221, 3624381080, 310598401, 607225278, 1426881987,
   1925078388, 2162078206, 2614888103, 3248222580, 3835390401, 4022224774,
   264347078, 604807628, 770255983, 1249150122, 1555081692, 1996064986,
   2554220882, 2821834349, 2952996808, 3210313671, 3336571891, 3584528711,
   113926993, 338241895, 666307205, 773529912, 1294757372, 1396182291,
   1695183700, 1986661051, 2177026350, 2456956037, 2730485921, 2820302411,
   3259730800, 3345764771, 3516065817, 3600352804, 4094571909, 275423344,
   430227734, 506948616, 659060556, 883997877, 958139571, 1322822218,
   1537002063, 1747873779, 1955562222, 2024104815, 2227730452, 2361852424,
   2428436474, 2756734187, 3204031479, 3329325298]

/-- The eight SHA-256 initial hash words of FIPS 180-4, written in decimal. -/
def H256 : List Nat :=
  [1779033703, 3144134277, 1013904242, 2773480762,
   1359893119, 2600822924, 528734635, 1541459225]

/-- Big-endian byte expansion, most significant byte first. -/
def beBytes : Nat → Nat → List Nat
  | 0, _ => []
  | k + 1, v => ((v >>> (8 * k)) % 256) :: beBytes k v

/-- SHA-256 padding: append `0x80`, zeros, and the 64-bit bit length. -/
def shaPad (msg : List Nat) : List Nat :=
  msg ++ 0x80 :: List.replicate ((56 + 64 - (msg.length + 1) % 64) % 64) 0
    ++ beBytes 8 (8 * msg.length)

/-- Group bytes into big-endian 32-bit words. -/
def toWords : List Nat → List Nat
  | a :: b :: c :: d :: rest => (((a * 256 + b) * 256 + c) * 256 + d) :: toWords rest
  | _ => []

/-- Group words into 16-word blocks. -/
def toBlocks : List Nat → List (List Nat)
  | [] => []
  | w :: rest => (w :: rest).take 16 :: toBlocks ((w :: rest).drop 16)
termination_by ws => ws.length
decreasing_by simp only [List.length_drop, List.length_cons]; omega

/-- Extend a 16-word block to the 64-word message schedule. -/
def extendSchedule (block : List Nat) : List Nat :=
  (List.range 48).foldl
    (fun acc i =>
      acc ++ [w32 (acc.getD i 0 + smallSigma0 (acc.getD (i + 1) 0)
        + acc.getD (i + 9) 0 + smallSigma1 (acc.getD (i + 14) 0))])
    block

/-- One round of the SHA-256 compression function. -/
def compressStep (st : List Nat) (kw : Nat × Nat) : List Nat :=
  match st with
  | [a, b, c, d, e, f, g, h] =>
    let t1 := w32 (h + bigSigma1 e + shaCh e f g + kw.1 + kw.2)
    let t2 := w32 (bigSigma0 a + shaMaj a b c)
    [w32 (t1 + t2), a, b, c, w32 (d + t1), e, f, g]
  | _ => st

/-- Process one 512-bit block. -/
def processBlock (H : List Nat) (block : List Nat) : List Nat :=
  let st := (K256.zip (extendSchedule block)).foldl compressStep H
  (H.zip st).map fun p => w32 (p.1 + p.2)

/-- SHA-256 of a byte sequence, as eight 32-bit words. -/
def sha256words (msg : List Nat) : List Nat :=
  (toBlocks (toWords (shaPad msg))).foldl processBlock H256

/-- Lowercase hexadecimal digit. -/
def hexDigit (n : Nat) : Char :=
  if n < 10 then Char.ofNat (48 + n) else Char.ofNat (87 + n)

/-- Eight lowercase hex digits of one 32-bit word. -/
def hexWord (w : Nat) : List Char :=
  (List.range 8).map fun i => hexDigit ((w >>> (4 * (7 - i))) % 16)

/-- Model of `hashlib.sha256(s.encode("utf-8")).hexdigest()`. -/
def sha256hex (s : String) : String :=
  String.mk ((sha256words (s.toUTF8.toList.map UInt8.toNat)).map hexWord).flatten

/-! ### Identity deriver -/

/-- Python truthiness-based `a or b` on optional strings: `None` and `""` are
falsy, so they fall through to the right operand. -/
def pyStrOr (a : Option String) (b : String) : String :=
  match a with
  | some s => if s = "" then b else s
  | none => b

/-- Definition of `build_doc_id` from the handler:
token = version_id or etag or ""; sha256 of "{bucket}:{key}:{token}". -/
def build_doc_id (bucket key : String) (version_id etag : Option String) : String :=
  sha256hex (bucket ++ ":" ++ key ++ ":" ++ pyStrOr version_id (pyStrOr etag ""))

/-- Chunk identifier `"{doc_id}:{idx}"` as built in the per-chunk loop. -/
def chunk_id (doc_id : String) (idx : Nat) : String :=
  doc_id ++ ":" ++ toString idx

/-- Derived storage path `vectors/{index}/{namespace}/{chunk_id}.json`. -/
def vector_object_key (cid : String) : String :=
  "vectors/" ++ S3_VECTORS_INDEX ++ "/" ++ S3_VECTORS_NAMESPACE ++ "/" ++ cid ++ ".json"

/-- Document type classification from the first path segment of the key. -/
def infer_doc_type (key : String) : String :=
  let seg := String.mk (key.toList.takeWhile fun c => c != Char.ofNat 47)
  if seg = "company" ∨ seg = "contracts" ∨ seg = "employees" ∨ seg = "products"
  then seg else "unknown"

/-! ### Embedding client: `embed_text`

The Bedrock call is modelled by an oracle `svc : Nat → BedrockOutcome` giving
the outcome of the service call made on each attempt, and the
`random.uniform(0.75, 1.25)` draw by an oracle `jitter : Nat → ℚ`.  The loop
is `for attempt in range(8)`; only a `ThrottlingException` with
`attempt < 8 - 1` retries; the result records the value returned or the
`RuntimeError` message, the number of service calls and the backoff sleeps. -/

/-- Outcome of one `invoke_model` call: a parsed body with the optional
"embedding" and "vector" fields, a `ClientError` with an error code, or a
`BotoCoreError`/`KeyError`/`ValueError`. -/
inductive BedrockOutcome where
  | success (embedding vector : Option (List ℚ))
  | clientError (code : Option String)
  | transportError (msg : String)
deriving DecidableEq

inductive EmbedResult where
  | ok (v : List ℚ)
  | error (msg : String)
deriving DecidableEq

/-- Python `body.get("embedding") or body.get("vector")`: `None` and the
empty list are falsy, so they fall through to the "vector" field. -/
def pyOrVec (a b : Option (List ℚ)) : Option (List ℚ) :=
  match a with
  | some l => if l = [] then b else some l
  | none => b

def codeRepr : Option String → String
  | some c => c
  | none => "None"

def embedFailMsg (cause : String) : String :=
  "Failed to embed text with model " ++ BEDROCK_EMBEDDING_MODEL ++ ": " ++ cause

/-- Result of a run of `embed_text`: outcome, number of service calls made,
and the list of backoff sleeps taken (in seconds). -/
structure EmbedTrace where
  result : EmbedResult
  calls : Nat
  delays : List ℚ
deriving DecidableEq

/-- Backoff delay `min(8.0, 0.5 * 2**attempt) * jitter`. -/
def backoffDelay (attempt : Nat) (jitter : ℚ) : ℚ :=
  min 8 ((1 / 2) * 2 ^ attempt) * jitter

/-- The retry loop of `embed_text`.  The fuel counts the loop iterations left
in `for attempt in range(8)`; it starts at 8 with `attempt = 0`, and the
retry guard `attempt < 8 - 1` keeps the zero-fuel branch unreachable (the
loop always exits by `return` or `raise`). -/
def embedGo (svc : Nat → BedrockOutcome) (jitter : Nat → ℚ) :
    Nat → Nat → EmbedTrace
  | 0, _ => ⟨.error "unreachable: for-loop exhausted", 0, []⟩
  | fuel + 1, attempt =>
    match svc attempt with
    | .success emb vec =>
      match pyOrVec emb vec with
      | some v =>
        if v = [] then ⟨.error "Embedding response missing vector", 1, []⟩
        else ⟨.ok v, 1, []⟩
      | none => ⟨.error "Embedding response missing vector", 1, []⟩
    | .clientError code =>
      if code = some "ThrottlingException" ∧ attempt < 8 - 1 then
        let rest := embedGo svc jitter fuel (attempt + 1)
        ⟨rest.result, rest.calls + 1, backoffDelay attempt (jitter attempt) :: rest.delays⟩
      else ⟨.error (embedFailMsg ("ClientError " ++ codeRepr code)), 1, []⟩
    | .transportError msg => ⟨.error (embedFailMsg msg), 1, []⟩

/-- Definition of `embed_text`: runs the retry loop `for attempt in range(8)`. -/
def embed_text (svc : Nat → BedrockOutcome) (jitter : Nat → ℚ) : EmbedTrace :=
  embedGo svc jitter 8 0

/-! ### Vector store gateway: `vector_exists` -/

/-- Outcome of the `head_object` probe on the vector key. -/
inductive HeadOutcome where
  | ok
  | clientError (code : Option String)
deriving DecidableEq

def notFoundCodes : List (Option String) :=
  [some "404", some "NoSuchKey", some "NotFound"]

def accessDeniedCodes : List (Option String) :=
  [some "403", some "AccessDenied", some "Forbidden"]

/-- Definition of `vector_exists`: true on a successful probe; false on not-found and on
access-denied error codes; re-raises any other `ClientError`. -/
def vector_exists (r : HeadOutcome) : Except String Bool :=
  match r with
  | .ok => .ok true
  | .clientError code =>
    if code ∈ notFoundCodes then .ok false
    else if code ∈ accessDeniedCodes then .ok false
    else .error ("ClientError " ++ codeRepr code)

/-! ### Orchestrator: `process_s3_event`

External effects are modelled by an environment of oracles and the pass
returns the list of performed actions (embed calls, vector writes, the
manifest write) together with either the manifest chunk list or the raised
error. -/

/-- One entry of the manifest's `chunks` list. -/
structure ChunkEntry where
  chunk_id : String
  doc_type : String
  chunk_text_preview : List Char
  source_s3_uri : String
  length : Nat
  created_at : String
deriving DecidableEq

/-- The manifest entry appended when the vector already exists (the dict
literal in the `if vector_exists(...)` branch). -/
def mkEntryCached (cid doc_type : String) (chunk : List Char)
    (source_uri created_at : String) : ChunkEntry :=
  ⟨cid, doc_type, chunk.take 200, source_uri, chunk.length, created_at⟩

/-- The manifest entry appended after a fresh embed + store (the dict literal
at the end of the loop body). -/
def mkEntryStored (cid doc_type : String) (chunk : List Char)
    (source_uri created_at : String) : ChunkEntry :=
  ⟨cid, doc_type, chunk.take 200, source_uri, chunk.length, created_at⟩

/-- Observable effects of a pass. -/
inductive Action where
  | embedCall (idx : Nat)
  | storeWrite (key : String)
  | manifestWrite (chunkCount : Nat)
deriving DecidableEq

/-- Oracles for the external collaborators: document fetch, `head_object`
per vector key, the outcome of `embed_text` and of the vector `put_object`
per chunk index, and the manifest `put_object`. -/
structure Env where
  fetch : Except String (List Char)
  head : String → HeadOutcome
  embed : Nat → Except String (List ℚ)
  store : Nat → Except String Unit
  putManifest : Except String Unit

/-- The per-chunk loop of `process_s3_event` over `enumerate(chunks)`. -/
def processChunks (env : Env) (doc_id doc_type source_uri created_at : String) :
    Nat → List (List Char) → List Action × Except String (List ChunkEntry)
  | _, [] => ([], .ok [])
  | idx, chunk :: rest =>
    match vector_exists (env.head (vector_object_key (chunk_id doc_id idx))) with
    | .error e => ([], .error e)
    | .ok true =>
      let r := processChunks env doc_id doc_type source_uri created_at (idx + 1) rest
      (r.1, r.2.map fun es =>
        mkEntryCached (chunk_id doc_id idx) doc_type chunk source_uri created_at :: es)
    | .ok false =>
      match env.embed idx with
      | .error e => ([Action.embedCall idx], .error e)
      | .ok _v =>
        match env.store idx with
        | .error e => ([Action.embedCall idx],
            .error ("Failed to store vector " ++ chunk_id doc_id idx ++ ": " ++ e))
        | .ok _ =>
          let r := processChunks env doc_id doc_type source_uri created_at (idx + 1) rest
          (Action.embedCall idx ::
              Action.storeWrite (vector_object_key (chunk_id doc_id idx)) :: r.1,
            r.2.map fun es =>
              mkEntryStored (chunk_id doc_id idx) doc_type chunk source_uri created_at :: es)

/-- One document pass: fetch, normalize, chunk, per-chunk loop, manifest
write.  The manifest-write action is recorded only when the final
`put_object` succeeds; any raised error aborts the pass. -/
def processDoc (env : Env) (doc_id bucket key created_at : String) :
    List Action × Except String (List ChunkEntry) :=
  match env.fetch with
  | .error e => ([], .error ("Failed to fetch " ++ bucket ++ "/" ++ key ++ ": " ++ e))
  | .ok text =>
    let chunks := chunk_text (markdown_to_text text) 1200 200
    let r := processChunks env doc_id (infer_doc_type key)
      ("s3://" ++ bucket ++ "/" ++ key) created_at 0 chunks
    match r.2 with
    | .error e => (r.1, .error e)
    | .ok entries =>
      match env.putManifest with
      | .error e => (r.1, .error ("Failed to write manifest for " ++ doc_id ++ ": " ++ e))
      | .ok _ => (r.1 ++ [Action.manifestWrite entries.length], .ok entries)

/-- Definition of `process_s3_event`: derive the doc id, then run the pass. -/
def process_s3_event (env : Env) (bucket key : String)
    (version_id etag : Option String) (created_at : String) :
    List Action × Except String (List ChunkEntry) :=
  processDoc env (build_doc_id bucket key version_id etag) bucket key created_at

/-- Environment backed by a set `S` of already-stored vector keys: the
existence probe reports 404 exactly when the key is absent, and every other
collaborator call succeeds. -/
def storeEnv (S : List String) (text : List Char) (vecs : Nat → List ℚ) : Env where
  fetch := .ok text
  head := fun k => if k ∈ S then .ok else .clientError (some "404")
  embed := fun i => .ok (vecs i)
  store := fun _ => .ok ()
  putManifest := .ok ()

/-- Number of embedding-service calls recorded in a trace. -/
def embedCallCount (tr : List Action) : Nat :=
  (tr.filter fun a => match a with | .embedCall _ => true | _ => false).length

/-- Vector keys written in a trace, in order. -/
def storeKeys (tr : List Action) : List String :=
  tr.filterMap fun a => match a with | .storeWrite k => some k | _ => none

/-- Number of manifest writes recorded in a trace. -/
def manifestWriteCount (tr : List Action) : Nat :=
  (tr.filter fun a => match a with | .manifestWrite _ => true | _ => false).length

/-- Keys of the chunks whose vector is not yet in the store `S` (the chunks
the pass must embed and write). -/
def missingKeys (S : List String) (doc_id : String) :
    Nat → List (List Char) → List String
  | _, [] => []
  | idx, _ :: rest =>
    if vector_object_key (chunk_id doc_id idx) ∈ S then
      missingKeys S doc_id (idx + 1) rest
    else
      vector_object_key (chunk_id doc_id idx) :: missingKeys S doc_id (idx + 1) rest

/-! ### Spec-side definitions (written from the specification's wording,
for comparison with the code-derived definitions) -/

/-- A "present" optional string in the sense the identity section of the
specification uses: supplied and non-empty. -/
def strPresent : Option String → Bool
  | some s => s != ""
  | none => false

/-- Token selection as the specification words it: "version_id if present
else etag if present else empty string". -/
def tokenSpec (v e : Option String) : String :=
  if strPresent v then v.getD "" else if strPresent e then e.getD "" else ""

/-- Does the text contain a run of three consecutive newlines? -/
def hasTripleNl : List Char → Bool
  | a :: b :: c :: rest => (a = nl && b = nl && c = nl) || hasTripleNl (b :: c :: rest)
  | _ => false

/-- Adjacent chunks produced by the loop share exactly `O` characters. -/
theorem chunkLoop_chain {t : List Char} {C O : Nat} (hO : O < C) :
    ∀ {fuel start : Nat}, t.length - start ≤ fuel →
      List.Chain' (fun a b => a.drop (a.length - O) = b.take O)
        (chunkLoop t C O fuel start) := by
  intro fuel
  induction fuel with
  | zero => intro start h; rw [chunkLoop]; exact List.chain'_nil
  | succ f ih =>
    intro start h
    rw [chunkLoop]
    by_cases hs : start < t.length
    · simp only [if_pos hs]
      by_cases he : min (start + C) t.length = t.length
      · rw [if_pos he]
        simp
      · rw [if_neg he]
        have hmin : min (start + C) t.length = start + C := by omega
        have hlt : start + C < t.length := by omega
        rw [hmin]
        have hs' : start + C - O < t.length := by omega
        have hfuel' : t.length - (start + C - O) ≤ f := by omega
        obtain ⟨r, hr⟩ := @chunkLoop_headChunk t C O f (start + C - O) hs' (by omega)
        rw [hr]
        apply List.Chain'.cons
        · have hC : start + C - start = C := by omega
          rw [hC]
          have hclen : ((t.drop start).take C).length = C := by
            simp only [List.length_take, List.length_drop]
            omega
          rw [hclen, List.drop_take]
          have hCO : C - (C - O) = O := by omega
          rw [hCO, List.drop_drop]
          have h1 : start + (C - O) = start + C - O := by omega
          rw [h1, List.take_take]
          have h2 : min O (min (start + C - O + C) t.length - (start + C - O)) = O := by
            omega
          rw [h2]
        · rw [← hr]
          exact ih hfuel'
    · simp [if_neg hs]

/-! ### Helper lemmas for the retry loop -/

theorem embedGo_throttle_step {svc : Nat → BedrockOutcome} {jitter : Nat → ℚ}
    {fuel attempt : Nat}
    (h : svc attempt = .clientError (some "ThrottlingException")) (ha : attempt < 7) :
    embedGo svc jitter (fuel + 1) attempt =
      ⟨(embedGo svc jitter fuel (attempt + 1)).result,
       (embedGo svc jitter fuel (attempt + 1)).calls + 1,
       backoffDelay attempt (jitter attempt) ::
         (embedGo svc jitter fuel (attempt + 1)).delays⟩ := by
  rw [embedGo, h]
  dsimp only
  rw [if_pos ⟨rfl, by omega⟩]

theorem embedGo_throttle_exhaust {svc : Nat → BedrockOutcome} {jitter : Nat → ℚ}
    {fuel : Nat} (h : svc 7 = .clientError (some "ThrottlingException")) :
    embedGo svc jitter (fuel + 1) 7 =
      ⟨.error (embedFailMsg ("ClientError " ++ codeRepr (some "ThrottlingException"))),
       1, []⟩ := by
  rw [embedGo, h]
  dsimp only
  rw [if_neg (by simp)]

theorem embedGo_success {svc : Nat → BedrockOutcome} {jitter : Nat → ℚ}
    {fuel attempt : Nat} {emb vec : Option (List ℚ)} {v : List ℚ}
    (h : svc attempt = .success emb vec) (hv : pyOrVec emb vec = some v)
    (hne : v ≠ []) :
    embedGo svc jitter (fuel + 1) attempt = ⟨.ok v, 1, []⟩ := by
  rw [embedGo, h]
  dsimp only
  rw [hv]
  dsimp only
  rw [if_neg hne]

theorem embedGo_all_throttle (svc : Nat → BedrockOutcome) (jitter : Nat → ℚ)
    (hall : ∀ n, svc n = .clientError (some "ThrottlingException")) :
    ∀ k attempt, attempt + k = 8 → 1 ≤ k →
      embedGo svc jitter k attempt =
        ⟨.error (embedFailMsg ("ClientError " ++ codeRepr (some "ThrottlingException"))),
         k, (List.range' attempt (k - 1)).map fun i => backoffDelay i (jitter i)⟩ := by
  intro k
  induction k with
  | zero => intro attempt h h1; omega
  | succ f ih =>
    intro attempt h _
    by_cases ha : attempt < 7
    · rw [embedGo_throttle_step (hall attempt) ha, ih (attempt + 1) (by omega) (by omega)]
      have hf : 1 ≤ f := by omega
      obtain ⟨g, rfl⟩ : ∃ g, f = g + 1 := ⟨f - 1, by omega⟩
      simp [List.range'_succ]
    · have h7 : attempt = 7 := by omega
      subst h7
      have hf : f = 0 := by omega
      subst hf
      rw [embedGo_throttle_exhaust (hall 7)]
      simp

/-! ### Helper lemmas for the normalizer -/

theorem startsTicks3_false {a : Char} {rest : List Char} (ha : a ≠ tick) :
    startsTicks3 (a :: rest) = false := by
  match rest with
  | [] => rfl
  | [b] => rfl
  | b :: c :: r => simp [startsTicks3, ha]

theorem findTicks3_none {l : List Char} (h : tick ∉ l) : findTicks3 l = none := by
  induction l with
  | nil => rfl
  | cons a rest ih =>
    have ha : a ≠ tick := fun he => h (he ▸ List.mem_cons_self a rest)
    rw [findTicks3, startsTicks3_false ha]
    simp [ih fun hm => h (List.mem_cons_of_mem _ hm)]

theorem findTick_none {l : List Char} (h : tick ∉ l) : findTick l = none := by
  induction l with
  | nil => rfl
  | cons a rest ih =>
    have ha : a ≠ tick := fun he => h (he ▸ List.mem_cons_self a rest)
    rw [findTick, if_neg ha]
    simp [ih fun hm => h (List.mem_cons_of_mem _ hm)]

theorem removeFencesF_of_none {l : List Char} (h : findTicks3 l = none) :
    ∀ fuel, removeFencesF fuel l = l := by
  intro fuel
  cases fuel <;> simp [removeFencesF, h]

theorem removeInlineF_of_none {l : List Char} (h : findTick l = none) :
    ∀ fuel, removeInlineF fuel l = l := by
  intro fuel
  cases fuel <;> simp [removeInlineF, h]

theorem leadNls_le_two {l : List Char} (h : hasTripleNl l = false) :
    leadNls l ≤ 2 := by
  match l with
  | [] => simp [leadNls]
  | [a] => by_cases ha : a = nl <;> simp [leadNls, ha]
  | [a, b] =>
    by_cases ha : a = nl <;> by_cases hb : b = nl <;> simp [leadNls, ha, hb]
  | a :: b :: c :: r =>
    by_cases ha : a = nl
    · by_cases hb : b = nl
      · by_cases hc : c = nl
        · simp [hasTripleNl, ha, hb, hc] at h
        · simp [leadNls, ha, hb, hc]
      · simp [leadNls, ha, hb]
    · simp [leadNls, ha]

theorem hasTripleNl_tail {a : Char} {r : List Char}
    (h : hasTripleNl (a :: r) = false) : hasTripleNl r = false := by
  match r with
  | [] => rfl
  | [b] => rfl
  | b :: c :: r2 =>
    rw [hasTripleNl] at h
    exact (Bool.or_eq_false_iff.mp h).2

theorem collapseNlsF_of_no_triple :
    ∀ (fuel : Nat) (l : List Char), hasTripleNl l = false →
      collapseNlsF fuel l = l := by
  intro fuel
  induction fuel with
  | zero => intro l h; rfl
  | succ f ih =>
    intro l h
    match l with
    | [] => rfl
    | c :: rest =>
      rw [collapseNlsF]
      have hle := leadNls_le_two h
      rw [if_neg fun hc => by omega]
      rw [ih rest (hasTripleNl_tail h)]

/-! ### Helper lemmas for the orchestrator -/

theorem processChunks_manifest_count (env : Env) (d dt su ca : String) :
    ∀ (chunks : List (List Char)) (idx : Nat),
      manifestWriteCount (processChunks env d dt su ca idx chunks).1 = 0 := by
  intro chunks
  induction chunks with
  | nil => intro idx; rfl
  | cons c rest ih =>
    intro idx
    rw [processChunks]
    rcases hve : vector_exists (env.head (vector_object_key (chunk_id d idx))) with e | b
    · simp [manifestWriteCount]
    · cases b
      · rcases hemb : env.embed idx with e | v
        · simp [manifestWriteCount]
        · rcases hst : env.store idx with e | u
          · simp [manifestWriteCount]
          · have := ih (idx + 1)
            simp only [manifestWriteCount, List.filter] at this ⊢
            simpa using this
      · have := ih (idx + 1)
        simpa [manifestWriteCount] using this

theorem processChunks_entries (env : Env) (d dt su ca : String) :
    ∀ (chunks : List (List Char)) (idx : Nat) (es : List ChunkEntry),
      (processChunks env d dt su ca idx chunks).2 = .ok es →
      es.length = chunks.length ∧
      es.map (fun x => x.chunk_id) = (List.range' idx chunks.length).map (chunk_id d) := by
  intro chunks
  induction chunks with
  | nil =>
    intro idx es h
    simp only [processChunks, Except.ok.injEq] at h
    subst h
    simp
  | cons c rest ih =>
    intro idx es h
    rw [processChunks] at h
    rcases hve : vector_exists (env.head (vector_object_key (chunk_id d idx))) with e | b
    · rw [hve] at h
      simp at h
    · rw [hve] at h
      cases b
      · dsimp only at h
        rcases hemb : env.embed idx with e | v
        · rw [hemb] at h
          simp at h
        · rw [hemb] at h
          dsimp only at h
          rcases hst : env.store idx with e | u
          · rw [hst] at h
            simp at h
          · rw [hst] at h
            dsimp only at h
            rcases hrec : (processChunks env d dt su ca (idx + 1) rest).2 with e2 | es'
            · rw [hrec] at h
              simp [Except.map] at h
            · rw [hrec] at h
              simp only [Except.map, Except.ok.injEq] at h
              subst h
              obtain ⟨hlen, hmap⟩ := ih (idx + 1) es' hrec
              refine ⟨by simpa using hlen, ?_⟩
              simp only [List.length_cons, List.range'_succ, List.map_cons, List.map, hmap]
              rfl
      · dsimp only at h
        rcases hrec : (processChunks env d dt su ca (idx + 1) rest).2 with e2 | es'
        · rw [hrec] at h
          simp [Except.map] at h
        · rw [hrec] at h
          simp only [Except.map, Except.ok.injEq] at h
          subst h
          obtain ⟨hlen, hmap⟩ := ih (idx + 1) es' hrec
          refine ⟨by simpa using hlen, ?_⟩
          simp only [List.length_cons, List.range'_succ, List.map_cons, List.map, hmap]
          rfl

theorem vector_exists_storeEnv (S : List String) (text : List Char)
    (vecs : Nat → List ℚ) (k : String) :
    vector_exists ((storeEnv S text vecs).head k) = .ok (decide (k ∈ S)) := by
  by_cases hk : k ∈ S <;> simp [storeEnv, vector_exists, hk, notFoundCodes]

theorem processChunks_storeEnv (S : List String) (text : List Char)
    (vecs : Nat → List ℚ) (d dt su ca : String) :
    ∀ (chunks : List (List Char)) (idx : Nat),
      (∃ es, (processChunks (storeEnv S text vecs) d dt su ca idx chunks).2 = .ok es ∧
        es.length = chunks.length) ∧
      storeKeys (processChunks (storeEnv S text vecs) d dt su ca idx chunks).1 =
        missingKeys S d idx chunks ∧
      embedCallCount (processChunks (storeEnv S text vecs) d dt su ca idx chunks).1 =
        (missingKeys S d idx chunks).length := by
  intro chunks
  induction chunks with
  | nil => intro idx; exact ⟨⟨[], rfl, rfl⟩, rfl, rfl⟩
  | cons c rest ih =>
    intro idx
    obtain ⟨⟨es', hes', hlen'⟩, hkeys', hcount'⟩ := ih (idx + 1)
    by_cases hk : vector_object_key (chunk_id d idx) ∈ S
    · have hdec : decide (vector_object_key (chunk_id d idx) ∈ S) = true := by
        simp [hk]
      have hpc : processChunks (storeEnv S text vecs) d dt su ca idx (c :: rest) =
          ((processChunks (storeEnv S text vecs) d dt su ca (idx + 1) rest).1,
           (processChunks (storeEnv S text vecs) d dt su ca (idx + 1) rest).2.map
             fun es => mkEntryCached (chunk_id d idx) dt c su ca :: es) := by
        rw [processChunks, vector_exists_storeEnv, hdec]
      rw [hpc, missingKeys, if_pos hk]
      refine ⟨⟨mkEntryCached (chunk_id d idx) dt c su ca :: es', ?_, by simp [hlen']⟩,
        hkeys', hcount'⟩
      rw [hes']
      rfl
    · have hdec : decide (vector_object_key (chunk_id d idx) ∈ S) = false := by
        simp [hk]
      have hpc : processChunks (storeEnv S text vecs) d dt su ca idx (c :: rest) =
          (Action.embedCall idx ::
              Action.storeWrite (vector_object_key (chunk_id d idx)) ::
              (processChunks (storeEnv S text vecs) d dt su ca (idx + 1) rest).1,
           (processChunks (storeEnv S text vecs) d dt su ca (idx + 1) rest).2.map
             fun es => mkEntryStored (chunk_id d idx) dt c su ca :: es) := by
        rw [processChunks, vector_exists_storeEnv, hdec]
        rfl
      rw [hpc, missingKeys, if_neg hk]
      refine ⟨⟨mkEntryStored (chunk_id d idx) dt c su ca :: es', ?_, by simp [hlen']⟩,
        ?_, ?_⟩
      · rw [hes']
        rfl
      · simp only [storeKeys, List.filterMap] at hkeys' ⊢
        simpa using hkeys'
      · simp only [embedCallCount, List.filter, List.length_cons] at hcount' ⊢
        simpa using hcount'

theorem missingKeys_nil_of_all_mem (S : List String) (d : String) :
    ∀ (chunks : List (List Char)) (idx : Nat),
      (∀ i, i < chunks.length → vector_object_key (chunk_id d (idx + i)) ∈ S) →
      missingKeys S d idx chunks = [] := by
  intro chunks
  induction chunks with
  | nil => intro idx h; rfl
  | cons c rest ih =>
    intro idx h
    have h0 : vector_object_key (chunk_id d idx) ∈ S := by
      have := h 0 (by simp)
      simpa using this
    rw [missingKeys, if_pos h0]
    exact ih (idx + 1) fun i hi => by
      have := h (i + 1) (by simpa using hi)
      have he : idx + (i + 1) = idx + 1 + i := by omega
      rwa [he] at this

theorem key_mem_append_missingKeys (S : List String) (d : String) :
    ∀ (chunks : List (List Char)) (idx : Nat) (i : Nat), i < chunks.length →
      vector_object_key (chunk_id d (idx + i)) ∈ S ++ missingKeys S d idx chunks := by
  intro chunks
  induction chunks with
  | nil => intro idx i h; simp at h
  | cons c rest ih =>
    intro idx i hi
    by_cases hk : vector_object_key (chunk_id d idx) ∈ S
    · rw [missingKeys, if_pos hk]
      cases i with
      | zero => exact List.mem_append_left _ (by simpa using hk)
      | succ n =>
        have := ih (idx + 1) n (by simpa using hi)
        have he : idx + (n + 1) = idx + 1 + n := by omega
        rw [he]
        exact this
    · rw [missingKeys, if_neg hk]
      cases i with
      | zero =>
        refine List.mem_append_right _ ?_
        simp
      | succ n =>
        have := ih (idx + 1) n (by simpa using hi)
        have he : idx + (n + 1) = idx + 1 + n := by omega
        rw [he]
        rcases List.mem_append.mp this with hl | hr
        · exact List.mem_append_left _ hl
        · exact List.mem_append_right _ (List.mem_cons_of_mem _ hr)

/-! ## Claims -/

/-- C7: `build_doc_id` hashes exactly `"{bucket}:{key}:{token}"` with SHA-256,
where the token is the version id if present, else the etag if present, else
empty ("present" in the Python-truthiness sense pinned down by C10); the
function is a pure function of its inputs, hence deterministic; and the chunk
identifier for index `i` is exactly `"{doc_id}:{i}"`. -/
theorem build_doc_id_spec (b k : String) (v e : Option String) (d : String) (i : Nat) :
    build_doc_id b k v e = sha256hex (b ++ ":" ++ k ++ ":" ++ tokenSpec v e) ∧
    chunk_id d i = d ++ ":" ++ toString i := by
  refine ⟨?_, rfl⟩
  cases v with
  | none =>
    cases e with
    | none => rfl
    | some s =>
      by_cases h : s = "" <;>
        simp [build_doc_id, pyStrOr, tokenSpec, strPresent, bne, h]
  | some s =>
    cases e with
    | none =>
      by_cases h : s = "" <;>
        simp [build_doc_id, pyStrOr, tokenSpec, strPresent, bne, h]
    | some s2 =>
      by_cases h : s = "" <;> by_cases h2 : s2 = "" <;>
        simp [build_doc_id, pyStrOr, tokenSpec, strPresent, bne, h, h2]

/-- C10: an empty-string `version_id` falls through to the etag exactly as an
absent one does, and an empty-string etag yields the empty token. -/
theorem build_doc_id_empty_token_spec (b k : String) (e : Option String) :
    build_doc_id b k (some "") e = build_doc_id b k none e ∧
    build_doc_id b k none (some "") = build_doc_id b k none none := by
  constructor
  · simp [build_doc_id, pyStrOr]
  · simp [build_doc_id, pyStrOr]

/-- C5: `vector_exists` returns true on a successful probe, false on a
not-found code (404 / NoSuchKey / NotFound) and on an access-denied code
(403 / AccessDenied / Forbidden), and re-raises every other error. -/
theorem vector_exists_spec (code : Option String) :
    vector_exists .ok = .ok true ∧
    (code ∈ notFoundCodes ∨ code ∈ accessDeniedCodes →
      vector_exists (.clientError code) = .ok false) ∧
    (code ∉ notFoundCodes → code ∉ accessDeniedCodes →
      vector_exists (.clientError code) = .error ("ClientError " ++ codeRepr code)) := by
  refine ⟨rfl, ?_, ?_⟩
  · intro h
    rcases h with h | h
    · simp [vector_exists, h]
    · by_cases h2 : code ∈ notFoundCodes <;> simp [vector_exists, h, h2]
  · intro h1 h2
    simp [vector_exists, h1, h2]

theorem vector_exists_spec_witness :
    vector_exists (.clientError (some "AccessDenied")) = .ok false ∧
    vector_exists (.clientError (some "InternalError")) =
      .error ("ClientError " ++ codeRepr (some "InternalError")) :=
  ⟨(vector_exists_spec (some "AccessDenied")).2.1 (Or.inr (by decide)),
   (vector_exists_spec (some "InternalError")).2.2 (by decide) (by decide)⟩

/-- C6: a transport-successful response whose body yields no vector under
either accepted field name ("embedding" falling through to "vector" by Python
truthiness), or yields an empty one, fails immediately with the
missing-vector error after a single service call and with no backoff —
this failure is not retried. -/
theorem embed_missing_vector_spec (svc : Nat → BedrockOutcome) (jitter : Nat → ℚ)
    (emb vec : Option (List ℚ)) (h0 : svc 0 = .success emb vec)
    (hv : pyOrVec emb vec = none ∨ pyOrVec emb vec = some []) :
    embed_text svc jitter = ⟨.error "Embedding response missing vector", 1, []⟩ := by
  rw [embed_text, embedGo, h0]
  dsimp only
  rcases hv with h | h <;> rw [h] <;> rfl

theorem embed_missing_vector_spec_witness :
    embed_text (fun _ => .success (some []) none) (fun _ => 1) =
      ⟨.error "Embedding response missing vector", 1, []⟩ :=
  embed_missing_vector_spec _ _ (some []) none rfl (Or.inl rfl)

/-- C1: with throttling on the first two calls and a vector-bearing response
on the third, `embed_text` returns that vector after exactly 3 calls, having
slept two backoff delays; with throttling on every call it makes exactly 8
calls (the default maximum) and fails with the descriptive error naming the
model and the cause, after 7 backoff delays; and each backoff delay is
`min(8.0, 0.5 * 2**attempt)` times the jitter factor drawn from
`[0.75, 1.25]`. -/
theorem embed_text_retry_spec (svc : Nat → BedrockOutcome) (jitter : Nat → ℚ)
    (hJ : ∀ i, (3 : ℚ) / 4 ≤ jitter i ∧ jitter i ≤ 5 / 4) :
    (∀ emb vec v, svc 0 = .clientError (some "ThrottlingException") →
      svc 1 = .clientError (some "ThrottlingException") →
      svc 2 = .success emb vec → pyOrVec emb vec = some v → v ≠ [] →
      embed_text svc jitter =
        ⟨.ok v, 3, [backoffDelay 0 (jitter 0), backoffDelay 1 (jitter 1)]⟩) ∧
    ((∀ n, svc n = .clientError (some "ThrottlingException")) →
      embed_text svc jitter =
        ⟨.error (embedFailMsg ("ClientError " ++ codeRepr (some "ThrottlingException"))),
         8, (List.range' 0 7).map fun i => backoffDelay i (jitter i)⟩) ∧
    (∀ i, backoffDelay i (jitter i) = min 8 ((1 / 2) * 2 ^ i) * jitter i ∧
      (3 : ℚ) / 4 ≤ jitter i ∧ jitter i ≤ 5 / 4) := by
  refine ⟨?_, ?_, ?_⟩
  · intro emb vec v h0 h1 h2 hv hne
    have L2 : embedGo svc jitter 6 2 = ⟨.ok v, 1, []⟩ :=
      @embedGo_success svc jitter 5 2 emb vec v h2 hv hne
    have L1 : embedGo svc jitter 7 1 =
        ⟨.ok v, 2, [backoffDelay 1 (jitter 1)]⟩ := by
      rw [show (7 : Nat) = 6 + 1 from rfl,
        @embedGo_throttle_step svc jitter 6 1 h1 (by omega)]
      norm_num [L2]
    rw [embed_text, show (8 : Nat) = 7 + 1 from rfl,
      @embedGo_throttle_step svc jitter 7 0 h0 (by omega)]
    norm_num [L1]
  · intro hall
    rw [embed_text, embedGo_all_throttle svc jitter hall 8 0 (by omega) (by omega)]
  · intro i
    exact ⟨rfl, (hJ i).1, (hJ i).2⟩

theorem embed_text_retry_spec_witness :
    (embed_text
        (fun n => if n < 2 then .clientError (some "ThrottlingException")
          else .success (some [1]) none)
        (fun _ => 1) =
      ⟨.ok [1], 3, [backoffDelay 0 1, backoffDelay 1 1]⟩) ∧
    (embed_text (fun _ => .clientError (some "ThrottlingException")) (fun _ => 1) =
      ⟨.error (embedFailMsg ("ClientError " ++ codeRepr (some "ThrottlingException"))),
       8, (List.range' 0 7).map fun i => backoffDelay i 1⟩) := by
  constructor
  · exact (embed_text_retry_spec _ _ (fun i => by norm_num)).1
      (some [1]) none [1] rfl rfl rfl rfl (by decide)
  · exact (embed_text_retry_spec _ _ (fun i => by norm_num)).2.1 (fun n => rfl)

/-- C8: with `overlap < chunk_size` the chunking loop is insensitive to any
fuel of at least `len(text)`, i.e. the while loop terminates within
`len(text)` iterations and yields a finite chunk sequence; the empty text
yields the empty sequence. -/
theorem chunk_text_terminates_spec (t : List Char) (C O : Nat) (hO : O < C) :
    (∀ f, t.length ≤ f → chunkLoop t C O f 0 = chunkLoop t C O t.length 0) ∧
    chunk_text t C O = (if t = [] then [] else chunkLoop t C O t.length 0) ∧
    chunk_text [] C O = [] := by
  refine ⟨?_, rfl, rfl⟩
  intro f hf
  obtain ⟨k, rfl⟩ : ∃ k, f = t.length + k := ⟨f - t.length, by omega⟩
  exact (chunkLoop_fuel_add hO k (by omega)).symm

theorem chunk_text_terminates_spec_witness :
    chunkLoop ['a', 'b', 'c'] 2 1 5 0 = chunkLoop ['a', 'b', 'c'] 2 1 3 0 ∧
    chunk_text [] 2 1 = [] := by
  have h := chunk_text_terminates_spec ['a', 'b', 'c'] 2 1 (by omega)
  exact ⟨by simpa using h.1 5 (by norm_num), h.2.2⟩

/-- C3: with `overlap < chunk_size`, the chunks cover the whole text — the
first chunk followed by every later chunk with its leading `overlap`
characters removed concatenates back to the text exactly — and each adjacent
pair of chunks shares exactly `overlap` characters (the final chunk simply
has no successor). -/
theorem chunk_coverage_spec (t : List Char) (C O : Nat) (hO : O < C) :
    dropJoin O (chunk_text t C O) = t ∧
    List.Chain' (fun a b => a.drop (a.length - O) = b.take O) (chunk_text t C O) := by
  constructor
  · rw [chunk_text]
    by_cases ht : t = []
    · simp [ht, dropJoin]
    · rw [if_neg ht]
      have h0 : 0 < t.length := List.length_pos.mpr ht
      have h := @chunkLoop_dropJoin t C O hO t.length 0 h0 (by omega)
      simpa using h
  · rw [chunk_text]
    by_cases ht : t = []
    · simp [ht]
    · rw [if_neg ht]
      exact chunkLoop_chain hO (by omega)

theorem chunk_coverage_spec_witness :
    dropJoin 1 (chunk_text ['a', 'b', 'c', 'd', 'e'] 3 1) = ['a', 'b', 'c', 'd', 'e'] ∧
    List.Chain' (fun a b => a.drop (a.length - 1) = b.take 1)
      (chunk_text ['a', 'b', 'c', 'd', 'e'] 3 1) :=
  chunk_coverage_spec ['a', 'b', 'c', 'd', 'e'] 3 1 (by omega)

/-- C9 as stated is false: "no code fences and no triple newlines" does not
make the normalizer the identity.  An inline code span loses its backticks
(first input), and leading whitespace is stripped (second input), although
both inputs contain no triple-backtick fence and no run of three newlines. -/
theorem normalizer_unchanged_counterexample :
    (findTicks3 [tick, Char.ofNat 97, tick] = none ∧
      hasTripleNl [tick, Char.ofNat 97, tick] = false ∧
      markdown_to_text [tick, Char.ofNat 97, tick] ≠ [tick, Char.ofNat 97, tick]) ∧
    (findTicks3 [Char.ofNat 32, Char.ofNat 97] = none ∧
      hasTripleNl [Char.ofNat 32, Char.ofNat 97] = false ∧
      markdown_to_text [Char.ofNat 32, Char.ofNat 97] ≠ [Char.ofNat 32, Char.ofNat 97]) := by
  refine ⟨⟨?_, ?_, ?_⟩, ⟨?_, ?_, ?_⟩⟩ <;> decide

/-- C9 (amended): for text with no backtick at all, no run of three or more
consecutive newlines, and no leading or trailing whitespace, the normalizer
returns it unchanged — and is therefore idempotent on such text. -/
theorem normalizer_idempotent_spec (l : List Char)
    (hTick : tick ∉ l) (hNl : hasTripleNl l = false) (hStrip : pyStrip l = l) :
    markdown_to_text l = l ∧
    markdown_to_text (markdown_to_text l) = markdown_to_text l := by
  have h1 : markdown_to_text l = l := by
    rw [markdown_to_text, removeFences, removeFencesF_of_none (findTicks3_none hTick),
      removeInline, removeInlineF_of_none (findTick_none hTick),
      collapseNls, collapseNlsF_of_no_triple _ _ hNl, hStrip]
  exact ⟨h1, by rw [h1, h1]⟩

theorem normalizer_idempotent_spec_witness :
    markdown_to_text ['a', 'b'] = ['a', 'b'] ∧
    markdown_to_text (markdown_to_text ['a', 'b']) = markdown_to_text ['a', 'b'] :=
  normalizer_idempotent_spec ['a', 'b'] (by decide) (by decide) (by decide)

/-- C4: the manifest write is recorded exactly once when the pass succeeds and
never when it fails (any hard failure in fetch, existence check, embed or
store aborts with no manifest write); on success the write is the last action,
after all per-chunk work; and the manifest lists exactly one entry per chunk
produced by the chunker, in chunk order. -/
theorem manifest_write_once_spec (env : Env) (doc_id bucket key created_at : String) :
    manifestWriteCount (processDoc env doc_id bucket key created_at).1 =
      (if (processDoc env doc_id bucket key created_at).2.isOk then 1 else 0) ∧
    (∀ es, (processDoc env doc_id bucket key created_at).2 = .ok es →
      ∃ tr, (processDoc env doc_id bucket key created_at).1 =
          tr ++ [Action.manifestWrite es.length] ∧ manifestWriteCount tr = 0) ∧
    (∀ es text, env.fetch = .ok text →
      (processDoc env doc_id bucket key created_at).2 = .ok es →
      es.length = (chunk_text (markdown_to_text text) 1200 200).length ∧
      es.map (fun x => x.chunk_id) =
        (List.range' 0 (chunk_text (markdown_to_text text) 1200 200).length).map
          (chunk_id doc_id)) := by
  rcases hf : env.fetch with e | text
  · have hpd : processDoc env doc_id bucket key created_at =
        ([], .error ("Failed to fetch " ++ bucket ++ "/" ++ key ++ ": " ++ e)) := by
      rw [processDoc, hf]
    rw [hpd]
    refine ⟨rfl, ?_, ?_⟩
    · intro es h
      simp at h
    · intro es t2 hft h
      simp at h
  · rcases hr : (processChunks env doc_id (infer_doc_type key)
        ("s3://" ++ bucket ++ "/" ++ key) created_at 0
        (chunk_text (markdown_to_text text) 1200 200)).2 with e | entries
    · have hpd : processDoc env doc_id bucket key created_at =
          ((processChunks env doc_id (infer_doc_type key)
            ("s3://" ++ bucket ++ "/" ++ key) created_at 0
            (chunk_text (markdown_to_text text) 1200 200)).1, .error e) := by
        rw [processDoc, hf]
        dsimp only
        rw [hr]
      rw [hpd]
      refine ⟨?_, ?_, ?_⟩
      · simpa using processChunks_manifest_count env doc_id (infer_doc_type key)
          ("s3://" ++ bucket ++ "/" ++ key) created_at
          (chunk_text (markdown_to_text text) 1200 200) 0
      · intro es h
        simp at h
      · intro es t2 hft h
        simp at h
    · rcases hpm : env.putManifest with e | u
      · have hpd : processDoc env doc_id bucket key created_at =
            ((processChunks env doc_id (infer_doc_type key)
              ("s3://" ++ bucket ++ "/" ++ key) created_at 0
              (chunk_text (markdown_to_text text) 1200 200)).1,
             .error ("Failed to write manifest for " ++ doc_id ++ ": " ++ e)) := by
          rw [processDoc, hf]
          dsimp only
          rw [hr]
          dsimp only
          rw [hpm]
        rw [hpd]
        refine ⟨?_, ?_, ?_⟩
        · simpa using processChunks_manifest_count env doc_id (infer_doc_type key)
            ("s3://" ++ bucket ++ "/" ++ key) created_at
            (chunk_text (markdown_to_text text) 1200 200) 0
        · intro es h
          simp at h
        · intro es t2 hft h
          simp at h
      · have hpd : processDoc env doc_id bucket key created_at =
            ((processChunks env doc_id (infer_doc_type key)
              ("s3://" ++ bucket ++ "/" ++ key) created_at 0
              (chunk_text (markdown_to_text text) 1200 200)).1 ++
                [Action.manifestWrite entries.length],
             .ok entries) := by
          rw [processDoc, hf]
          dsimp only
          rw [hr]
          dsimp only
          rw [hpm]
        rw [hpd]
        have hcount := processChunks_manifest_count env doc_id (infer_doc_type key)
          ("s3://" ++ bucket ++ "/" ++ key) created_at
          (chunk_text (markdown_to_text text) 1200 200) 0
        refine ⟨?_, ?_, ?_⟩
        · simp only [manifestWriteCount, List.filter_append] at hcount ⊢
          simp [hcount, Except.isOk, Except.toBool]
        · intro es h
          obtain rfl : entries = es := by simpa using h
          exact ⟨_, rfl, hcount⟩
        · intro es t2 hft h
          obtain rfl : t2 = text := by simpa using hft.symm
          obtain rfl : entries = es := by simpa using h
          exact processChunks_entries env doc_id _ _ _ _ 0 _ hr

/-- C2 as stated is false in one respect: the manifest entry appended when
the chunk's vector already exists carries no from-cache marking — it is
byte-for-byte the same record the fresh embed-and-store path appends, so the
manifest cannot distinguish cached from freshly stored chunks. -/
theorem cached_entry_unmarked_counterexample :
    mkEntryCached "d:0" "products" ['x'] "s3://b/k.md" "2024-01-01T00:00:00" =
      mkEntryStored "d:0" "products" ['x'] "s3://b/k.md" "2024-01-01T00:00:00" := rfl

/-- C2 (amended): in a pass against a store holding the key set `S`, every
chunk whose key is present is neither embedded nor written while a manifest
entry (identical to a freshly-stored one, with no from-cache marker) is still
appended, and every other chunk is embedded and written: the pass succeeds
with one entry per chunk, the written keys are exactly the missing ones and
the embed calls exactly count them; re-processing the same event against the
store augmented with the written keys makes zero embedding calls and yields a
manifest with the same chunk count. -/
theorem idempotent_pass_spec (S : List String) (text : List Char)
    (vecs vecs2 : Nat → List ℚ) (doc_id bucket key created_at created_at2 : String) :
    (∀ cid dt ch su ca, mkEntryCached cid dt ch su ca = mkEntryStored cid dt ch su ca) ∧
    (∃ es₁, (processDoc (storeEnv S text vecs) doc_id bucket key created_at).2 = .ok es₁ ∧
      es₁.length = (chunk_text (markdown_to_text text) 1200 200).length) ∧
    storeKeys (processDoc (storeEnv S text vecs) doc_id bucket key created_at).1 =
      missingKeys S doc_id 0 (chunk_text (markdown_to_text text) 1200 200) ∧
    embedCallCount (processDoc (storeEnv S text vecs) doc_id bucket key created_at).1 =
      (missingKeys S doc_id 0 (chunk_text (markdown_to_text text) 1200 200)).length ∧
    embedCallCount (processDoc
        (storeEnv
          (S ++ storeKeys (processDoc (storeEnv S text vecs) doc_id bucket key created_at).1)
          text vecs2)
        doc_id bucket key created_at2).1 = 0 ∧
    (∃ es₂, (processDoc
        (storeEnv
          (S ++ storeKeys (processDoc (storeEnv S text vecs) doc_id bucket key created_at).1)
          text vecs2)
        doc_id bucket key created_at2).2 = .ok es₂ ∧
      es₂.length = (chunk_text (markdown_to_text text) 1200 200).length) := by
  obtain ⟨⟨es₁, hes₁, hlen₁⟩, hkeys₁, hcount₁⟩ :=
    processChunks_storeEnv S text vecs doc_id (infer_doc_type key)
      ("s3://" ++ bucket ++ "/" ++ key) created_at
      (chunk_text (markdown_to_text text) 1200 200) 0
  have hpd1 : processDoc (storeEnv S text vecs) doc_id bucket key created_at =
      ((processChunks (storeEnv S text vecs) doc_id (infer_doc_type key)
          ("s3://" ++ bucket ++ "/" ++ key) created_at 0
          (chunk_text (markdown_to_text text) 1200 200)).1 ++
        [Action.manifestWrite es₁.length],
       .ok es₁) := by
    rw [processDoc, show (storeEnv S text vecs).fetch = .ok text from rfl]
    dsimp only
    rw [hes₁]
    dsimp only
    rw [show (storeEnv S text vecs).putManifest = .ok () from rfl]
  have hsk1 : storeKeys (processDoc (storeEnv S text vecs) doc_id bucket key created_at).1 =
      missingKeys S doc_id 0 (chunk_text (markdown_to_text text) 1200 200) := by
    rw [hpd1]
    dsimp only
    rw [← hkeys₁]
    simp [storeKeys, List.filterMap_append]
  -- the second pass sees every chunk key as present
  have hall : ∀ i, i < (chunk_text (markdown_to_text text) 1200 200).length →
      vector_object_key (chunk_id doc_id (0 + i)) ∈
        S ++ storeKeys (processDoc (storeEnv S text vecs) doc_id bucket key created_at).1 := by
    intro i hi
    rw [hsk1]
    exact key_mem_append_missingKeys S doc_id _ 0 i hi
  have hmiss2 : missingKeys
      (S ++ storeKeys (processDoc (storeEnv S text vecs) doc_id bucket key created_at).1)
      doc_id 0 (chunk_text (markdown_to_text text) 1200 200) = [] :=
    missingKeys_nil_of_all_mem _ doc_id _ 0 hall
  obtain ⟨⟨es₂, hes₂, hlen₂⟩, _hkeys₂, hcount₂⟩ :=
    processChunks_storeEnv
      (S ++ storeKeys (processDoc (storeEnv S text vecs) doc_id bucket key created_at).1)
      text vecs2 doc_id (infer_doc_type key)
      ("s3://" ++ bucket ++ "/" ++ key) created_at2
      (chunk_text (markdown_to_text text) 1200 200) 0
  have hpd2 : processDoc
      (storeEnv
        (S ++ storeKeys (processDoc (storeEnv S text vecs) doc_id bucket key created_at).1)
        text vecs2)
      doc_id bucket key created_at2 =
      ((processChunks
          (storeEnv
            (S ++ storeKeys (processDoc (storeEnv S text vecs) doc_id bucket key created_at).1)
            text vecs2) doc_id (infer_doc_type key)
          ("s3://" ++ bucket ++ "/" ++ key) created_at2 0
          (chunk_text (markdown_to_text text) 1200 200)).1 ++
        [Action.manifestWrite es₂.length],
       .ok es₂) := by
    rw [processDoc, show (storeEnv
        (S ++ storeKeys (processDoc (storeEnv S text vecs) doc_id bucket key created_at).1)
        text vecs2).fetch = .ok text from rfl]
    dsimp only
    rw [hes₂]
    dsimp only
    rw [show (storeEnv
        (S ++ storeKeys (processDoc (storeEnv S text vecs) doc_id bucket key created_at).1)
        text vecs2).putManifest = .ok () from rfl]
  refine ⟨fun cid dt ch su ca => rfl, ⟨es₁, by rw [hpd1], hlen₁⟩, hsk1, ?_, ?_, ?_⟩
  · rw [hpd1]
    dsimp only
    rw [← hcount₁]
    simp [embedCallCount, List.filter_append]
  · rw [hpd2]
    dsimp only
    have : embedCallCount (processChunks
        (storeEnv
          (S ++ storeKeys (processDoc (storeEnv S text vecs) doc_id bucket key created_at).1)
          text vecs2) doc_id (infer_doc_type key)
        ("s3://" ++ bucket ++ "/" ++ key) created_at2 0
        (chunk_text (markdown_to_text text) 1200 200)).1 = 0 := by
      rw [hcount₂, hmiss2]
      rfl
    simp only [embedCallCount] at this ⊢
    rw [List.filter_append]
    simp [this]
  · exact ⟨es₂, by rw [hpd2], hlen₂⟩

theorem manifest_write_once_spec_witness :
    manifestWriteCount (processDoc (storeEnv [] ['h', 'i'] fun _ => [1]) "d" "b" "k" "t").1 =
      (if (processDoc (storeEnv [] ['h', 'i'] fun _ => [1]) "d" "b" "k" "t").2.isOk
       then 1 else 0) ∧
    [mkEntryStored (chunk_id "d" 0) (infer_doc_type "k") ['h', 'i'] "s3://b/k" "t"].length =
      (chunk_text (markdown_to_text ['h', 'i']) 1200 200).length := by
  have h := manifest_write_once_spec (storeEnv [] ['h', 'i'] fun _ => [1]) "d" "b" "k" "t"
  exact ⟨h.1, (h.2.2 _ ['h', 'i'] rfl rfl).1⟩

end Ingestion
